import Mathlib

/-!
# Verification of the tw-stock-tools holding ledger and earning reconstructor

Shallow embedding of `src/main.py` and `src/utils.py`.

Modelling conventions:
* Dates (`datetime.date` objects and their ISO `"%Y-%m-%d"` renderings) are
  modelled as natural numbers.  The code only ever compares dates — `date`
  objects with `<` in `_find_earliest_date` and in `sorted(...)`, and their
  fixed-width ISO strings with `<`/`>` in the pandas window filter — and the
  lexicographic order on fixed-width ISO strings coincides with the order on
  the dates themselves, so any linear order is a faithful model; `Nat`
  (think `20200101` for `"2020-01-01"`) keeps everything computable.
  `strftime("%Y-%m-%d")` is then the identity.
* Python numbers (`float` results of rates, prices and their products) are
  modelled as exact rationals `Rat`, the usual idealisation of the decimal
  quantities the program manipulates; `int(...)` is truncation toward zero
  (`pyInt`).  The literal `0.1` is modelled as `1/10`.  Where a float
  rounding error is itself the subject of a property — the
  `int(quantity) / 1000` true division in `load_history` — the IEEE-754
  binary64 rounding is modelled explicitly (`roundDouble`).
* A Python `dict` (`StockHoldingData.record`) is an insertion-ordered map;
  it is modelled as an association list with unique keys: a missing key is
  appended at the end, an update rewrites the first (in reachable states:
  the only) entry with that key.
* Exceptions are modelled with explicit error results (`Except` / an `Option
  PyError` component); mutation of `self` is explicit state passing.
* The market-data collaborator (the FinMind `DataLoader` behind
  `utils.py`) is a black box, modelled as a `Gateway` record of response
  functions; the dividend-history and latest-price calls may fail (network /
  auth errors propagate as exceptions).  The stock-name lookup is modelled as
  always succeeding — no property below concerns a failing name lookup.
-/

/-- Dates, modelled as naturals; see the module docstring. -/
abbrev Date := Nat

/-- Python `int(...)` applied to a rational: truncation toward zero
(`int` truncates toward zero for both signs). -/
def pyInt (q : Rat) : Int := Int.tdiv q.num q.den

/-- Round a rational to the nearest integer, ties to even — the IEEE-754
default rounding applied to a scaled significand. -/
def rneRat (x : Rat) : Int :=
  let f : Int := ⌊x⌋
  let r : Rat := x - (f : Rat)
  if r < 1 / 2 then f
  else if 1 / 2 < r then f + 1
  else if f % 2 = 0 then f else f + 1

/-- Round a rational to the nearest IEEE-754 binary64 value (53-bit
significand, round to nearest, ties to even), for magnitudes well inside
the normal range — the value a correctly rounded Python float operation
such as `int / int` true division produces.  `Int.log 2 |q|` is the binary
exponent; the significand `q · 2 ^ (52 - e)` is rounded with `rneRat`. -/
def roundDouble (q : Rat) : Rat :=
  if q = 0 then 0
  else
    ((rneRat (q * 2 ^ (52 - Int.log 2 |q|)) : Rat)) * 2 ^ (Int.log 2 |q| - 52)

/-- Errors surfaced by the embedded code (Python exceptions). -/
inductive PyError where
  /-- `ZeroDivisionError` from a `/` with zero denominator. -/
  | zeroDivision : PyError
  /-- `AttributeError` from `from_data.strftime(...)` when
  `from_data` is `None` (`utils.get_history_data_by_stock_no`). -/
  | noneStrftime : PyError
  /-- A market-data call failed (network / auth error from the vendor). -/
  | gatewayUnavailable : PyError
deriving DecidableEq, Repr

/-- `main.EarningEvent` (pydantic model). -/
structure EarningEvent where
  cal_quantity : Int
  cash_dividend : Rat
  stock_dividend : Rat
  dividend_date : Date
deriving DecidableEq, Repr

/-- `main.StockHolding` (pydantic model). -/
structure StockHolding where
  quantity : Int := 0
  avg_price : Rat := 0
deriving DecidableEq, Repr

/-- `main.StockInfo` (pydantic model). -/
structure StockInfo where
  holding : StockHolding
  holding_date : Date
deriving DecidableEq, Repr

/-- `main.UserRecord` (pydantic model). -/
structure UserRecord where
  buying_histories : List StockInfo := []
  current_holding : StockHolding
  earning_events : List EarningEvent := []
  cash_earning : Rat := 0
  stock_no : String
  stock_name : String
deriving DecidableEq, Repr

/-- `UserRecord.avg_buying_price`: the accumulation loop, then
`total_price / total_quantity` — which raises `ZeroDivisionError` when
`total_quantity` is `0`. -/
def UserRecord.avg_buying_price (r : UserRecord) : Except PyError Rat :=
  let total_quantity : Int :=
    r.buying_histories.foldl (fun acc b => acc + b.holding.quantity) 0
  let total_price : Rat :=
    r.buying_histories.foldl
      (fun acc b => acc + (b.holding.quantity : Rat) * b.holding.avg_price) 0
  if total_quantity = 0 then .error .zeroDivision
  else .ok (total_price / (total_quantity : Rat))

/-- `UserRecord.total_buying_quantity`. -/
def UserRecord.total_buying_quantity (r : UserRecord) : Int :=
  (r.buying_histories.map (fun b => b.holding.quantity)).sum

/-- `UserRecord.total_buying_price`. -/
def UserRecord.total_buying_price (r : UserRecord) : Rat :=
  (r.buying_histories.map
    (fun b => (b.holding.quantity : Rat) * b.holding.avg_price)).sum

/-- `UserRecord.total_current_price`. -/
def UserRecord.total_current_price (r : UserRecord) : Rat :=
  r.current_holding.avg_price * (r.current_holding.quantity : Rat)

/-- `UserRecord.total_earning`. -/
def UserRecord.total_earning (r : UserRecord) : Rat :=
  r.cash_earning + r.total_current_price - r.total_buying_price

/-- One row of the dividend-history dataframe returned by
`utils.get_history_data_by_stock_no` (FinMind `taiwan_stock_dividend`):
the three columns the code reads. -/
structure DividendRow where
  CashExDividendTradingDate : Date
  CashEarningsDistribution : Rat
  StockEarningsDistribution : Rat
deriving DecidableEq, Repr

/-- The external market-data vendor (the FinMind `DataLoader` used by
`utils.py`), as a record of response functions.  Dividend-history and
latest-price calls may fail (`.error .gatewayUnavailable` models a raised
network/auth exception). -/
structure Gateway where
  taiwan_stock_dividend : String → Date → Except PyError (List DividendRow)
  taiwan_stock_daily_latest_close : String → Except PyError Rat
  stock_name_of : String → String

/-- `utils.get_history_data_by_stock_no stock_no from_data`: calls
`from_data.strftime("%Y-%m-%d")` before querying the vendor, so a `None`
`from_data` raises `AttributeError` (modelled as `.error .noneStrftime`)
without reaching the vendor. -/
def get_history_data_by_stock_no (gw : Gateway) (stock_no : String)
    (from_data : Option Date) : Except PyError (List DividendRow) :=
  match from_data with
  | none => .error .noneStrftime
  | some d => gw.taiwan_stock_dividend stock_no d

/-- `utils.get_latest_stock_price_by_stock_no` /
`StockInputAction.get_current_price`. -/
def get_latest_stock_price_by_stock_no (gw : Gateway) (stock_no : String) :
    Except PyError Rat :=
  gw.taiwan_stock_daily_latest_close stock_no

/-- `utils.get_stock_name_by_stock_no` (modelled as always succeeding). -/
def get_stock_name_by_stock_no (gw : Gateway) (stock_no : String) : String :=
  gw.stock_name_of stock_no

/-- `main.StockHoldingData` (pydantic model): the ledger root, a dict from
stock number to `UserRecord`, modelled as an insertion-ordered association
list. -/
structure StockHoldingData where
  record : List (String × UserRecord) := []
deriving DecidableEq, Repr

/-- The fresh ledger `StockHoldingData()`. -/
def emptyHolding : StockHoldingData := { record := [] }

/-- In-place update of the value stored under a dict key: rewrites the first
entry with that key (in reachable states keys are unique, so this is exactly
`self.record[stock_no] = ...` / mutating `self.record[stock_no]`). -/
def updateFirst (k : String) (f : UserRecord → UserRecord) :
    List (String × UserRecord) → List (String × UserRecord)
  | [] => []
  | p :: rest =>
    if p.1 = k then (p.1, f p.2) :: rest else p :: updateFirst k f rest

/-- The `self.record[stock_no].buying_histories.append(StockInfo(...))` part
of `append_holding`: the stored quantity is the entered quantity scaled by
`1000` and coerced to `int` by the pydantic field (truncation, `pyInt`). -/
def push_history (hold_date : Date) (quantity avg_price : Rat)
    (r : UserRecord) : UserRecord :=
  { r with buying_histories := r.buying_histories ++
    [{ holding_date := hold_date,
       holding := { avg_price := avg_price,
                    quantity := pyInt (quantity * 1000) } }] }

/-- `StockHoldingData.append_holding`: create the record on first sight of the
stock number (with a gateway name lookup and a zeroed current holding), then
append the new `StockInfo` via `push_history`. -/
def StockHoldingData.append_holding (gw : Gateway) (s : StockHoldingData)
    (stock_no : String) (hold_date : Date) (quantity avg_price : Rat) :
    StockHoldingData :=
  let record1 :=
    if s.record.any (fun p => p.1 = stock_no) then s.record
    else s.record ++ [(stock_no,
      { stock_no := stock_no,
        stock_name := get_stock_name_by_stock_no gw stock_no,
        current_holding := {} : UserRecord })]
  { record := updateFirst stock_no (push_history hold_date quantity avg_price)
      record1 }

/-- One row of the holding-history table (the dict appended by
`gen_holding_table_rows`, also the columns of `holding_history.csv`). -/
structure HoldingTableRow where
  stock_no : String
  stock_name : String
  hold_date : Date
  quantity : Int
  avg_price : Rat
deriving DecidableEq, Repr

/-- `StockHoldingData.gen_holding_table_rows`: one row per buying history of
each record, in dict insertion order. -/
def StockHoldingData.gen_holding_table_rows (s : StockHoldingData) :
    List HoldingTableRow :=
  s.record.flatMap (fun p => p.2.buying_histories.map (fun b =>
    { stock_no := p.1, stock_name := p.2.stock_name,
      hold_date := b.holding_date, quantity := b.holding.quantity,
      avg_price := b.holding.avg_price }))

/-- The single row of the statistics table, with the numeric values the
f-strings of `gen_statistic_table_rows` format. -/
structure StatisticRow where
  total_value : Rat
  total_earning : Rat
  total_cash_dividend : Rat
  total_earning_rate : Rat
deriving DecidableEq, Repr

/-- `StockHoldingData.gen_statistic_table_rows`: four portfolio sums and the
rate `total_earning / total_buying_price * 100`, which raises
`ZeroDivisionError` when `total_buying_price` is `0`. -/
def StockHoldingData.gen_statistic_table_rows (s : StockHoldingData) :
    Except PyError (List StatisticRow) :=
  let total_value := (s.record.map (fun p => p.2.total_current_price)).sum
  let total_earning := (s.record.map (fun p => p.2.total_earning)).sum
  let total_cash_dividend := (s.record.map (fun p => p.2.cash_earning)).sum
  let total_buying_price := (s.record.map (fun p => p.2.total_buying_price)).sum
  if total_buying_price = 0 then .error .zeroDivision
  else .ok [{ total_value := total_value, total_earning := total_earning,
              total_cash_dividend := total_cash_dividend,
              total_earning_rate := total_earning / total_buying_price * 100 }]

/-- `StockInputAction._find_earliest_date`: `None` on an empty history list,
otherwise the linear minimum scan started from `histories[0]`. -/
def find_earliest_date : List StockInfo → Option Date
  | [] => none
  | h :: t => some ((h :: t).foldl
      (fun earliest x =>
        if x.holding_date < earliest then x.holding_date else earliest)
      h.holding_date)

/-- The mutable per-record state threaded through the reconstruction loop of
`calculate_earning_by_user_record` (the three fields it mutates). -/
structure CalcState where
  current_holding : StockHolding
  earning_events : List EarningEvent
  cash_earning : Rat
deriving DecidableEq, Repr

/-- The body of the inner `for div_idx, row in apply_dividend.iterrows()`
loop: snapshot `before_quantity`, add `int(cash_rate * before_quantity)` to
`cash_earning` when the cash rate is positive, add
`int(stock_rate * before_quantity * 0.1)` to the quantity when the stock
rate is positive, and append an `EarningEvent` unconditionally. -/
def apply_dividend_row (st : CalcState) (row : DividendRow) : CalcState :=
  let before_quantity := st.current_holding.quantity
  let cash_earning :=
    if 0 < row.CashEarningsDistribution then
      st.cash_earning +
        (pyInt (row.CashEarningsDistribution * (before_quantity : Rat)) : Rat)
    else st.cash_earning
  let quantity :=
    if 0 < row.StockEarningsDistribution then
      before_quantity +
        pyInt (row.StockEarningsDistribution * (before_quantity : Rat) * (1 / 10))
    else before_quantity
  { current_holding :=
      { quantity := quantity, avg_price := st.current_holding.avg_price },
    earning_events := st.earning_events ++
      [{ cal_quantity := before_quantity,
         cash_dividend := row.CashEarningsDistribution,
         stock_dividend := row.StockEarningsDistribution,
         dividend_date := row.CashExDividendTradingDate }],
    cash_earning := cash_earning }

/-- The outer `for idx, history in enumerate(sorted_buying_histories)` loop:
add the lot's quantity, filter the dividend dataframe to the rows whose
ex-dividend date is strictly between this lot's date and the next lot's date
(today's date for the last lot), apply them, then fetch the latest price —
whose failure aborts the loop with the state mutated so far. -/
def process_lots (gw : Gateway) (stock_no : String) (today : Date)
    (dividend_df : List DividendRow) :
    List StockInfo → CalcState → CalcState × Option PyError
  | [], st => (st, none)
  | history :: rest, st =>
    let st1 : CalcState :=
      { st with current_holding :=
        { st.current_holding with
          quantity := st.current_holding.quantity + history.holding.quantity } }
    let dividend_end_date : Date :=
      match rest with
      | [] => today
      | next :: _ => next.holding_date
    let apply_dividend := dividend_df.filter (fun row =>
      decide (history.holding_date < row.CashExDividendTradingDate) &&
      decide (row.CashExDividendTradingDate < dividend_end_date))
    let st2 := apply_dividend.foldl apply_dividend_row st1
    match get_latest_stock_price_by_stock_no gw stock_no with
    | .error e => (st2, some e)
    | .ok price =>
      process_lots gw stock_no today dividend_df rest
        { st2 with current_holding :=
          { st2.current_holding with avg_price := price } }

/-- The sort key of `sorted(user_record.buying_histories, key=lambda x:
x.holding_date)`. -/
def byHoldingDate (a b : StockInfo) : Prop := a.holding_date ≤ b.holding_date

instance : DecidableRel byHoldingDate :=
  fun a b => Nat.decLe a.holding_date b.holding_date

/-- `sorted(...)` is a stable sort; any stable sort with the same total key
comparison produces the same list, so it is modelled by insertion sort. -/
def sortedByHoldingDate (l : List StockInfo) : List StockInfo :=
  l.insertionSort byHoldingDate

/-- `StockInputAction.calculate_earning_by_user_record`: fetch the dividend
history from the earliest lot date (raising when there is no lot, since the
date is then `None`), sort the lots by date, and run the reconstruction loop.
The returned record carries whatever was mutated before any abort; the
`Option PyError` is the propagated exception, if any. -/
def calculate_earning_by_user_record (gw : Gateway) (today : Date)
    (stock_no : String) (user_record : UserRecord) :
    UserRecord × Option PyError :=
  match get_history_data_by_stock_no gw stock_no
      (find_earliest_date user_record.buying_histories) with
  | .error e => (user_record, some e)
  | .ok dividend_df =>
    let sorted_buying_histories := sortedByHoldingDate user_record.buying_histories
    let st0 : CalcState :=
      { current_holding := user_record.current_holding,
        earning_events := user_record.earning_events,
        cash_earning := user_record.cash_earning }
    let res := process_lots gw stock_no today dividend_df sorted_buying_histories st0
    ({ user_record with
        current_holding := res.1.current_holding,
        earning_events := res.1.earning_events,
        cash_earning := res.1.cash_earning }, res.2)

/-- The per-record effect of `StockInputAction.init_current_holding`:
zero the current holding, clear the earning events, zero the cash earning. -/
def reset_record (r : UserRecord) : UserRecord :=
  { r with
    current_holding := ({ quantity := 0, avg_price := 0 } : StockHolding),
    earning_events := [],
    cash_earning := 0 }

/-- `StockInputAction.init_current_holding`: reset every record. -/
def StockHoldingData.init_current_holding (s : StockHoldingData) :
    StockHoldingData :=
  { record := s.record.map (fun p => (p.1, reset_record p.2)) }

/-- The `for stock_no, user_record in self.stock_holding.record.items()` loop
of `calculate_earning`: process records in dict order; an exception aborts
the loop, leaving the failing record as mutated so far and the remaining
records untouched (they were already reset). -/
def calc_records (gw : Gateway) (today : Date) :
    List (String × UserRecord) → List (String × UserRecord) × Option PyError
  | [] => ([], none)
  | (stock_no, user_record) :: rest =>
    let res := calculate_earning_by_user_record gw today stock_no user_record
    match res.2 with
    | some e => ((stock_no, res.1) :: rest, some e)
    | none =>
      let res2 := calc_records gw today rest
      ((stock_no, res.1) :: res2.1, res2.2)

/-- `StockInputAction.calculate_earning` (the state-relevant part): reset all
records with `init_current_holding`, then replay every record; the second
component is the exception that aborted the pass, if any. -/
def calculate_earning (gw : Gateway) (today : Date) (s : StockHoldingData) :
    StockHoldingData × Option PyError :=
  let s0 := s.init_current_holding
  let res := calc_records gw today s0.record
  ({ record := res.1 }, res.2)

/-- `StockInputAction.write_history`: the rows written to
`holding_history.csv` — same double loop and fields as
`gen_holding_table_rows`, with the stored (already normalized) quantity. -/
def write_history_rows (s : StockHoldingData) : List HoldingTableRow :=
  s.record.flatMap (fun p => p.2.buying_histories.map (fun b =>
    { stock_no := p.1, stock_name := p.2.stock_name,
      hold_date := b.holding_date, quantity := b.holding.quantity,
      avg_price := b.holding.avg_price }))

/-- `StockInputAction.load_history`: feed each file row through
`append_holding` with the stored quantity divided by `1000`, onto the
current ledger state.  The division `int(row["quantity"]) / 1000` is Python
float true division, i.e. the correctly rounded IEEE-754 binary64 quotient
(`roundDouble`) — and the rounding error is observable: a stored quantity
of `1001` divides to the double just below `1.001`, so re-scaling truncates
it to `1000`.  The subsequent re-scaling `quantity * 1000` inside
`append_holding` is kept as exact rational multiplication; on every input
the theorems below use — the divisible-by-125 domain, where no operation
rounds at all, and the `1001` counterexample, where the quotient's rounding
deficit already dominates — the real double computation agrees with this
model. -/
def load_history (gw : Gateway) (rows : List HoldingTableRow)
    (s : StockHoldingData) : StockHoldingData :=
  rows.foldl (fun s row =>
    s.append_holding gw row.stock_no row.hold_date
      (roundDouble ((row.quantity : Rat) / 1000)) row.avg_price) s

/-- A sequence of `add_lot` user actions (`add_stock` without the
presentation refresh): stock number, date, entered quantity, average price. -/
def add_lots (gw : Gateway)
    (inputs : List (String × Date × Rat × Rat)) (s : StockHoldingData) :
    StockHoldingData :=
  inputs.foldl (fun s i => s.append_holding gw i.1 i.2.1 i.2.2.1 i.2.2.2) s

/-- The accrual windows of a (sorted) lot list: `(lot i date, lot i+1 date)`,
and `(last lot date, today)` for the last lot — exactly the
`dividend_start_date` / `dividend_end_date` pairs of the reconstruction
loop. -/
def accrual_windows (today : Date) : List StockInfo → List (Date × Date)
  | [] => []
  | [h] => [(h.holding_date, today)]
  | h :: next :: rest =>
    (h.holding_date, next.holding_date) :: accrual_windows today (next :: rest)

/-! ## Helper lemmas -/

/-- Accumulating `acc + f b` over a list from `init` is `init` plus the sum
of the mapped list (the loop/comprehension style of the source). -/
theorem foldl_add_map {α M : Type} [AddCommMonoid M] (f : α → M)
    (l : List α) (init : M) :
    l.foldl (fun acc b => acc + f b) init = init + (l.map f).sum := by
  induction l generalizing init with
  | nil => simp
  | cons x xs ih => simp [ih, add_assoc]

/-- A rational that is an integer is truncated to itself. -/
theorem pyInt_intCast (n : Int) : pyInt (n : Rat) = n := by
  simp [pyInt, Rat.num_intCast, Rat.den_intCast, Int.tdiv_one]

/-- Truncation is the identity on rationals with denominator `1`. -/
theorem pyInt_den_one (q : Rat) (h : q.den = 1) : (pyInt q : Rat) = q := by
  have hnum : (q.num : Rat) = q := by
    rw [← Rat.den_eq_one_iff]; exact h
  rw [pyInt, h]
  simpa [Int.tdiv_one] using hnum

/-! ## C1: recalculation on a security with no lots -/

/-- C1 (what the code actually does at the claim's input): for a security
record whose list of purchase lots is empty, `_find_earliest_date` returns
`None`, and the recalculation then passes that `None` straight into
`utils.get_history_data_by_stock_no`, whose `from_data.strftime(...)` raises
`AttributeError` — the security is not silently skipped, and the pass
aborts with the record unchanged. -/
theorem zero_lot_security_raises (gw : Gateway) (today : Date)
    (stock_no : String) (r : UserRecord) (h : r.buying_histories = []) :
    calculate_earning_by_user_record gw today stock_no r =
      (r, some PyError.noneStrftime) := by
  unfold calculate_earning_by_user_record get_history_data_by_stock_no
  rw [h]
  rfl

/-- An empty security record (no lots), with a zeroed current holding. -/
def recNoLots : UserRecord :=
  { buying_histories := [],
    current_holding := { quantity := 0, avg_price := 0 },
    stock_no := "2330", stock_name := "台積電" }

/-- A one-row dividend history: a pure stock dividend (rate `1.0`) going
ex-dividend on 2020-06-01. -/
def dfSingle : List DividendRow :=
  [{ CashExDividendTradingDate := 20200601,
     CashEarningsDistribution := 0,
     StockEarningsDistribution := 1 }]

/-- A gateway whose every call succeeds with fixed data. -/
def gwFixed : Gateway :=
  { taiwan_stock_dividend := fun _ _ => .ok dfSingle,
    taiwan_stock_daily_latest_close := fun _ => .ok 100,
    stock_name_of := fun _ => "台積電" }

theorem zero_lot_security_raises_witness :
    recNoLots.buying_histories = [] ∧
    calculate_earning_by_user_record gwFixed 20250101 "2330" recNoLots =
      (recNoLots, some PyError.noneStrftime) :=
  ⟨rfl, zero_lot_security_raises gwFixed 20250101 "2330" recNoLots rfl⟩

/-! ## C10: `avg_buying_price` division -/

/-- C10: the per-record average-buying-price derivation divides the
quantity-weighted price total by the summed lot quantity with no guard:
for every record whose lots sum to zero quantity (including a record with
no lots) it raises `ZeroDivisionError`, and for every record with nonzero
summed quantity it returns the quantity-weighted mean of the lots' average
prices (`total_buying_price / total_buying_quantity`). -/
theorem avg_buying_price_division (r : UserRecord) :
    (r.total_buying_quantity = 0 →
      r.avg_buying_price = .error .zeroDivision) ∧
    (r.total_buying_quantity ≠ 0 →
      r.avg_buying_price =
        .ok (r.total_buying_price / (r.total_buying_quantity : Rat))) := by
  have hq : r.buying_histories.foldl
      (fun acc b => acc + b.holding.quantity) 0 = r.total_buying_quantity := by
    rw [foldl_add_map]; simp [UserRecord.total_buying_quantity]
  have hp : r.buying_histories.foldl
      (fun acc b => acc + (b.holding.quantity : Rat) * b.holding.avg_price) 0 =
      r.total_buying_price := by
    rw [foldl_add_map]; simp [UserRecord.total_buying_price]
  constructor
  · intro h; simp [UserRecord.avg_buying_price, hq, h]
  · intro h; simp [UserRecord.avg_buying_price, hq, hp, h]

/-- A record with two lots: 1000 shares at 10 and 3000 shares at 20. -/
def recTwoLots : UserRecord :=
  { buying_histories :=
      [{ holding := { quantity := 1000, avg_price := 10 },
         holding_date := 20200101 },
       { holding := { quantity := 3000, avg_price := 20 },
         holding_date := 20200301 }],
    current_holding := { quantity := 0, avg_price := 0 },
    stock_no := "0050", stock_name := "元大台灣50" }

theorem avg_buying_price_division_witness :
    (recNoLots.total_buying_quantity = 0 ∧
      recNoLots.avg_buying_price = .error .zeroDivision) ∧
    (recTwoLots.total_buying_quantity ≠ 0 ∧
      recTwoLots.avg_buying_price =
        .ok (recTwoLots.total_buying_price /
          (recTwoLots.total_buying_quantity : Rat))) :=
  ⟨⟨by norm_num [recNoLots, UserRecord.total_buying_quantity],
    (avg_buying_price_division recNoLots).1
      (by norm_num [recNoLots, UserRecord.total_buying_quantity])⟩,
   ⟨by norm_num [recTwoLots, UserRecord.total_buying_quantity],
    (avg_buying_price_division recTwoLots).2
      (by norm_num [recTwoLots, UserRecord.total_buying_quantity])⟩⟩

/-! ## C9: portfolio statistics earning rate -/

/-- C9: the statistics derivation computes the overall earning rate as
`total_earning / total_buying_price` (displayed as a percentage, i.e.
multiplied by `100`), and raises `ZeroDivisionError` — rather than
returning a guarded value — whenever the summed total buying price across
all securities is zero, including on an empty portfolio. -/
theorem statistic_rate_division (s : StockHoldingData) :
    ((s.record.map (fun p => p.2.total_buying_price)).sum = 0 →
      s.gen_statistic_table_rows = .error .zeroDivision) ∧
    ((s.record.map (fun p => p.2.total_buying_price)).sum ≠ 0 →
      s.gen_statistic_table_rows = .ok
        [{ total_value := (s.record.map (fun p => p.2.total_current_price)).sum,
           total_earning := (s.record.map (fun p => p.2.total_earning)).sum,
           total_cash_dividend := (s.record.map (fun p => p.2.cash_earning)).sum,
           total_earning_rate := (s.record.map (fun p => p.2.total_earning)).sum /
             (s.record.map (fun p => p.2.total_buying_price)).sum * 100 }]) ∧
    StockHoldingData.gen_statistic_table_rows emptyHolding =
      .error .zeroDivision := by
  refine ⟨fun h => ?_, fun h => ?_, ?_⟩
  · simp [StockHoldingData.gen_statistic_table_rows, h]
  · simp [StockHoldingData.gen_statistic_table_rows, h]
  · simp [StockHoldingData.gen_statistic_table_rows, emptyHolding]

/-- A one-security ledger holding `recTwoLots` (nonzero cost basis). -/
def holdingOne : StockHoldingData := { record := [("0050", recTwoLots)] }

theorem statistic_rate_division_witness :
    ((holdingOne.record.map (fun p => p.2.total_buying_price)).sum ≠ 0 ∧
      holdingOne.gen_statistic_table_rows = .ok
        [{ total_value :=
             (holdingOne.record.map (fun p => p.2.total_current_price)).sum,
           total_earning :=
             (holdingOne.record.map (fun p => p.2.total_earning)).sum,
           total_cash_dividend :=
             (holdingOne.record.map (fun p => p.2.cash_earning)).sum,
           total_earning_rate :=
             (holdingOne.record.map (fun p => p.2.total_earning)).sum /
               (holdingOne.record.map (fun p => p.2.total_buying_price)).sum *
               100 }]) ∧
    StockHoldingData.gen_statistic_table_rows emptyHolding =
      .error .zeroDivision :=
  ⟨⟨by norm_num [holdingOne, recTwoLots, UserRecord.total_buying_price],
    (statistic_rate_division holdingOne).2.1
      (by norm_num [holdingOne, recTwoLots, UserRecord.total_buying_price])⟩,
   (statistic_rate_division emptyHolding).2.2⟩

/-! ## C4: dividend amounts (truncated cash and stock application) -/

/-- A record holding a single lot of 1000 shares bought on 2020-01-01. -/
def recSingleLot : UserRecord :=
  { buying_histories :=
      [{ holding := { quantity := 1000, avg_price := 50 },
         holding_date := 20200101 }],
    current_holding := { quantity := 0, avg_price := 0 },
    stock_no := "2330", stock_name := "台積電" }

/-- C4: for every dividend row applied against the quantity held before it:
a positive cash rate adds exactly `int(cash_rate * quantity_before)`
(truncated) to cumulative cash earning, and a positive stock rate adds
exactly `int(stock_rate * quantity_before * 0.1)` (truncated) to the running
quantity; in particular a single lot of 1000 shares with one in-window
distribution of stock rate `1.0` (and no later dividends) reconstructs to a
current holding quantity of 1100. -/
theorem dividend_application_amounts :
    (∀ (st : CalcState) (row : DividendRow),
      (0 < row.CashEarningsDistribution →
        (apply_dividend_row st row).cash_earning =
          st.cash_earning +
            (pyInt (row.CashEarningsDistribution *
              (st.current_holding.quantity : Rat)) : Rat)) ∧
      (0 < row.StockEarningsDistribution →
        (apply_dividend_row st row).current_holding.quantity =
          st.current_holding.quantity +
            pyInt (row.StockEarningsDistribution *
              (st.current_holding.quantity : Rat) * (1 / 10)))) ∧
    (calculate_earning_by_user_record gwFixed 20210101 "2330"
        recSingleLot).1.current_holding.quantity = 1100 := by
  constructor
  · intro st row
    constructor
    · intro h; simp [apply_dividend_row, if_pos h]
    · intro h; simp [apply_dividend_row, if_pos h]
  · norm_num [calculate_earning_by_user_record, get_history_data_by_stock_no,
      find_earliest_date, sortedByHoldingDate, List.insertionSort,
      List.orderedInsert, process_lots, apply_dividend_row,
      get_latest_stock_price_by_stock_no, pyInt, recSingleLot, gwFixed,
      dfSingle]

/-- A calculation state holding 1000 shares and some accrued cash. -/
def stWit : CalcState :=
  { current_holding := { quantity := 1000, avg_price := 60 },
    earning_events := [], cash_earning := 7 }

/-- A dividend row with cash rate `5/2` and stock rate `3`. -/
def rowWit : DividendRow :=
  { CashExDividendTradingDate := 20200701,
    CashEarningsDistribution := 5 / 2,
    StockEarningsDistribution := 3 }

theorem dividend_application_amounts_witness :
    (0 < rowWit.CashEarningsDistribution ∧
      (apply_dividend_row stWit rowWit).cash_earning =
        stWit.cash_earning +
          (pyInt (rowWit.CashEarningsDistribution *
            (stWit.current_holding.quantity : Rat)) : Rat)) ∧
    (0 < rowWit.StockEarningsDistribution ∧
      (apply_dividend_row stWit rowWit).current_holding.quantity =
        stWit.current_holding.quantity +
          pyInt (rowWit.StockEarningsDistribution *
            (stWit.current_holding.quantity : Rat) * (1 / 10))) :=
  ⟨⟨by norm_num [rowWit],
    (dividend_application_amounts.1 stWit rowWit).1 (by norm_num [rowWit])⟩,
   ⟨by norm_num [rowWit],
    (dividend_application_amounts.1 stWit rowWit).2 (by norm_num [rowWit])⟩⟩

/-! ## C3 and C5: accrual windows and the event log -/

/-- The data an `EarningEvent` copies verbatim from its dividend row. -/
def eventData (e : EarningEvent) : Rat × Rat × Date :=
  (e.cash_dividend, e.stock_dividend, e.dividend_date)

/-- The projection of a dividend row matching `eventData`. -/
def rowData (row : DividendRow) : Rat × Rat × Date :=
  (row.CashEarningsDistribution, row.StockEarningsDistribution,
   row.CashExDividendTradingDate)

theorem foldl_apply_dividend_events (rows : List DividendRow) (st : CalcState) :
    ((rows.foldl apply_dividend_row st).earning_events).map eventData =
      (st.earning_events.map eventData) ++ rows.map rowData := by
  induction rows generalizing st with
  | nil => simp
  | cons r rs ih =>
    rw [List.foldl_cons, ih]
    simp [apply_dividend_row, eventData, rowData]

theorem length_flatMap_sum {α β : Type} (f : α → List β) (l : List α) :
    (l.flatMap f).length = (l.map (fun a => (f a).length)).sum := by
  induction l with
  | nil => simp
  | cons x xs ih => simp [ih]

/-- The earning events recorded by the lot loop, projected to their row data,
are exactly the dividend rows strictly inside the successive accrual
windows, in order. -/
theorem process_lots_events (gw : Gateway) (stock_no : String) (today : Date)
    (dividend_df : List DividendRow) :
    ∀ (lots : List StockInfo) (st st' : CalcState),
      process_lots gw stock_no today dividend_df lots st = (st', none) →
      st'.earning_events.map eventData =
        st.earning_events.map eventData ++
          ((accrual_windows today lots).flatMap (fun w =>
            dividend_df.filter (fun row =>
              decide (w.1 < row.CashExDividendTradingDate) &&
              decide (row.CashExDividendTradingDate < w.2)))).map rowData := by
  intro lots
  induction lots with
  | nil =>
    intro st st' h
    simp only [process_lots] at h
    obtain ⟨h1, -⟩ := Prod.mk.injEq .. ▸ h
    simp [← h1, accrual_windows]
  | cons history rest ih =>
    intro st st' h
    simp only [process_lots] at h
    cases hp : get_latest_stock_price_by_stock_no gw stock_no with
    | error e => rw [hp] at h; simp at h
    | ok price =>
      rw [hp] at h
      simp only [] at h
      have h2 := ih _ _ h
      rw [foldl_apply_dividend_events] at h2
      cases rest with
      | nil =>
        simpa [accrual_windows] using h2
      | cons next rest' =>
        simpa [accrual_windows, List.append_assoc] using h2

/-- C3: during reconstruction a dividend row is applied within a lot's
accrual window if and only if its ex-dividend date lies strictly between
that lot's purchase date and the next lot's purchase date (today's date for
the last lot): the events recorded by the loop are exactly the rows passing
the strict two-sided comparison, so rows dated exactly on a window's start
or end date are excluded, for every lot list and every dividend history. -/
theorem dividend_window_strictness (gw : Gateway) (stock_no : String)
    (today : Date) (dividend_df : List DividendRow) (lots : List StockInfo)
    (st st' : CalcState) (hst : st.earning_events = [])
    (h : process_lots gw stock_no today dividend_df lots st = (st', none)) :
    st'.earning_events.map eventData =
      ((accrual_windows today lots).flatMap (fun w =>
        dividend_df.filter (fun row =>
          decide (w.1 < row.CashExDividendTradingDate) &&
          decide (row.CashExDividendTradingDate < w.2)))).map rowData ∧
    ∀ row : DividendRow,
      row ∈ (accrual_windows today lots).flatMap (fun w =>
        dividend_df.filter (fun row2 =>
          decide (w.1 < row2.CashExDividendTradingDate) &&
          decide (row2.CashExDividendTradingDate < w.2))) ↔
      ∃ w ∈ accrual_windows today lots, row ∈ dividend_df ∧
        w.1 < row.CashExDividendTradingDate ∧
        row.CashExDividendTradingDate < w.2 := by
  constructor
  · have h2 := process_lots_events gw stock_no today dividend_df lots st st' h
    simpa [hst] using h2
  · intro row
    simp only [List.mem_flatMap, List.mem_filter, Bool.and_eq_true,
      decide_eq_true_eq]

/-- Two lots dated 2020-01-01 and 2020-06-01. -/
def lotsWit : List StockInfo :=
  [{ holding := { quantity := 1000, avg_price := 10 },
     holding_date := 20200101 },
   { holding := { quantity := 2000, avg_price := 12 },
     holding_date := 20200601 }]

/-- Five dividend rows: dated on the first lot's own date (boundary), inside
the first window, on the second lot's date (boundary), inside the second
window, and on today's date (boundary). -/
def dfWit : List DividendRow :=
  [{ CashExDividendTradingDate := 20200101,
     CashEarningsDistribution := 1, StockEarningsDistribution := 0 },
   { CashExDividendTradingDate := 20200301,
     CashEarningsDistribution := 2, StockEarningsDistribution := 0 },
   { CashExDividendTradingDate := 20200601,
     CashEarningsDistribution := 3, StockEarningsDistribution := 0 },
   { CashExDividendTradingDate := 20200801,
     CashEarningsDistribution := 4, StockEarningsDistribution := 0 },
   { CashExDividendTradingDate := 20210101,
     CashEarningsDistribution := 5, StockEarningsDistribution := 0 }]

/-- The empty calculation state (a freshly reset record). -/
def stEmptyWit : CalcState :=
  { current_holding := { quantity := 0, avg_price := 0 },
    earning_events := [], cash_earning := 0 }

/-- The state produced by the lot loop on the witness data. -/
def stResWit : CalcState :=
  (process_lots gwFixed "2330" 20210101 dfWit lotsWit stEmptyWit).1

theorem dividend_window_strictness_witness :
    stEmptyWit.earning_events = [] ∧
    process_lots gwFixed "2330" 20210101 dfWit lotsWit stEmptyWit =
      (stResWit, none) ∧
    (stResWit.earning_events.map eventData =
      ((accrual_windows 20210101 lotsWit).flatMap (fun w =>
        dfWit.filter (fun row =>
          decide (w.1 < row.CashExDividendTradingDate) &&
          decide (row.CashExDividendTradingDate < w.2)))).map rowData ∧
    (dfWit.get ⟨0, by norm_num [dfWit]⟩ ∈
        (accrual_windows 20210101 lotsWit).flatMap (fun w =>
          dfWit.filter (fun row2 =>
            decide (w.1 < row2.CashExDividendTradingDate) &&
            decide (row2.CashExDividendTradingDate < w.2))) ↔
      ∃ w ∈ accrual_windows 20210101 lotsWit,
        dfWit.get ⟨0, by norm_num [dfWit]⟩ ∈ dfWit ∧
        w.1 < (dfWit.get ⟨0, by norm_num [dfWit]⟩).CashExDividendTradingDate ∧
        (dfWit.get ⟨0, by norm_num [dfWit]⟩).CashExDividendTradingDate < w.2)) :=
  have hproc : process_lots gwFixed "2330" 20210101 dfWit lotsWit stEmptyWit =
      (stResWit, none) := by
    rw [Prod.ext_iff]
    refine ⟨rfl, ?_⟩
    norm_num [process_lots, apply_dividend_row, get_latest_stock_price_by_stock_no,
      gwFixed, dfWit, lotsWit, stEmptyWit]
  ⟨rfl, hproc,
    (dividend_window_strictness gwFixed "2330" 20210101 dfWit lotsWit
        stEmptyWit stResWit rfl hproc).1,
    (dividend_window_strictness gwFixed "2330" 20210101 dfWit lotsWit
        stEmptyWit stResWit rfl hproc).2 _⟩

/-- C5: reconstruction appends one `EarningEvent` for every dividend row
falling in some lot's accrual window, regardless of whether either rate is
positive: after a reconstruction that starts from an empty event list, the
earning-event list's length equals the number of in-window dividend rows. -/
theorem earning_event_count (gw : Gateway) (today : Date) (stock_no : String)
    (r r' : UserRecord) (d : Date) (dividend_df : List DividendRow)
    (hev : r.earning_events = [])
    (hd : find_earliest_date r.buying_histories = some d)
    (hdiv : gw.taiwan_stock_dividend stock_no d = .ok dividend_df)
    (h : calculate_earning_by_user_record gw today stock_no r = (r', none)) :
    r'.earning_events.length =
      ((accrual_windows today (sortedByHoldingDate r.buying_histories)).map
        (fun w => (dividend_df.filter (fun row =>
          decide (w.1 < row.CashExDividendTradingDate) &&
          decide (row.CashExDividendTradingDate < w.2))).length)).sum := by
  rw [calculate_earning_by_user_record, hd] at h
  simp only [get_history_data_by_stock_no] at h
  rw [hdiv] at h
  simp only [] at h
  rw [hev] at h
  rw [Prod.ext_iff] at h
  obtain ⟨h1, h2⟩ := h
  dsimp only at h1 h2
  have hP : process_lots gw stock_no today dividend_df
      (sortedByHoldingDate r.buying_histories)
      { current_holding := r.current_holding,
        earning_events := [],
        cash_earning := r.cash_earning } =
      ((process_lots gw stock_no today dividend_df
        (sortedByHoldingDate r.buying_histories)
        { current_holding := r.current_holding,
          earning_events := [],
          cash_earning := r.cash_earning }).1, none) := by
    rw [Prod.ext_iff]
    exact ⟨rfl, h2⟩
  have hev2 := process_lots_events gw stock_no today dividend_df
    (sortedByHoldingDate r.buying_histories) _ _ hP
  have hlen := congrArg List.length hev2
  simp only [List.length_map, List.length_append, List.length_nil,
    List.map_nil, Nat.zero_add] at hlen
  rw [← h1]
  dsimp only
  rw [hlen, length_flatMap_sum]

/-! ## C6: idempotence of the recalculation pass -/

theorem reset_record_calc (gw : Gateway) (today : Date) (k : String)
    (r : UserRecord) :
    reset_record (calculate_earning_by_user_record gw today k r).1 =
      reset_record r := by
  rw [calculate_earning_by_user_record]
  cases h : get_history_data_by_stock_no gw k
      (find_earliest_date r.buying_histories) with
  | error e => rfl
  | ok df => rfl

theorem reset_record_idem (r : UserRecord) :
    reset_record (reset_record r) = reset_record r := rfl

theorem calc_records_reset (gw : Gateway) (today : Date) :
    ∀ l : List (String × UserRecord),
      (calc_records gw today l).1.map (fun p => (p.1, reset_record p.2)) =
        l.map (fun p => (p.1, reset_record p.2)) := by
  intro l
  induction l with
  | nil => simp [calc_records]
  | cons p rest ih =>
    obtain ⟨k, r⟩ := p
    simp only [calc_records]
    cases hres : (calculate_earning_by_user_record gw today k r).2 with
    | some e => simp [reset_record_calc]
    | none => simp [reset_record_calc, ih]

theorem init_current_holding_calc (gw : Gateway) (today : Date)
    (s : StockHoldingData) :
    (calculate_earning gw today s).1.init_current_holding =
      s.init_current_holding := by
  simp only [calculate_earning, StockHoldingData.init_current_holding]
  congr 1
  rw [calc_records_reset]
  simp [List.map_map, Function.comp_def, reset_record_idem]

theorem calculate_earning_congr (gw : Gateway) (today : Date)
    {s1 s2 : StockHoldingData}
    (h : s1.init_current_holding = s2.init_current_holding) :
    calculate_earning gw today s1 = calculate_earning gw today s2 := by
  simp only [calculate_earning]
  rw [h]

/-- C6: for every ledger state and fixed gateway responses, running the
earning recalculation twice in succession (with unchanged lots, which the
pass never touches) yields exactly the same result as running it once —
the same `current_holding`, `earning_events` and cash earning for every
security, and the same abort behaviour: the reset-then-replay recalculation
is idempotent. -/
theorem calculate_earning_idempotent (gw : Gateway) (today : Date)
    (s : StockHoldingData) :
    calculate_earning gw today (calculate_earning gw today s).1 =
      calculate_earning gw today s :=
  calculate_earning_congr gw today (init_current_holding_calc gw today s)

/-! ## C2: a gateway failure part-way through the pass -/

theorem calc_records_error_split (gw : Gateway) (today : Date) :
    ∀ (l l' : List (String × UserRecord)) (e : PyError),
      calc_records gw today l = (l', some e) →
      ∃ n : Nat,
        (∀ j, j < n → l'[j]? = (l[j]?).map
          (fun p => (p.1, (calculate_earning_by_user_record gw today p.1 p.2).1))) ∧
        (∀ j, n < j → l'[j]? = l[j]?) := by
  intro l
  induction l with
  | nil => intro l' e h; simp [calc_records] at h
  | cons p rest ih =>
    intro l' e h
    obtain ⟨k, r⟩ := p
    simp only [calc_records] at h
    cases hres : (calculate_earning_by_user_record gw today k r).2 with
    | some e2 =>
      rw [hres] at h
      simp only [] at h
      rw [Prod.ext_iff] at h
      obtain ⟨h1, h2⟩ := h
      dsimp only at h1 h2
      refine ⟨0, fun j hj => absurd hj (Nat.not_lt_zero j), fun j hj => ?_⟩
      rw [← h1]
      cases j with
      | zero => omega
      | succ j' => simp
    | none =>
      rw [hres] at h
      simp only [] at h
      rw [Prod.ext_iff] at h
      obtain ⟨h1, h2⟩ := h
      dsimp only at h1 h2
      have hrec : calc_records gw today rest =
          ((calc_records gw today rest).1, some e) := by
        rw [Prod.ext_iff]; exact ⟨rfl, h2⟩
      obtain ⟨n, hn1, hn2⟩ := ih _ _ hrec
      refine ⟨n + 1, fun j hj => ?_, fun j hj => ?_⟩
      · rw [← h1]
        cases j with
        | zero => simp
        | succ j' => simpa using hn1 j' (by omega)
      · rw [← h1]
        cases j with
        | zero => omega
        | succ j' => simpa using hn2 j' (by omega)

/-- C2 (amended): if a gateway lookup raises part-way through a
recalculation pass, the pass aborts with every security processed before the
failure left in its newly reconstructed state and every not-yet-processed
security left in the freshly *reset* state (zero current holding, empty
earning events, zero cumulative cash earning) — not in the state it had
before the pass started, because `init_current_holding` resets every
security up front before any is replayed. -/
theorem calculate_earning_abort_states (gw : Gateway) (today : Date)
    (s s' : StockHoldingData) (e : PyError)
    (h : calculate_earning gw today s = (s', some e)) :
    ∃ n : Nat,
      (∀ j, j < n → s'.record[j]? = (s.init_current_holding.record[j]?).map
        (fun p => (p.1, (calculate_earning_by_user_record gw today p.1 p.2).1))) ∧
      (∀ j, n < j → s'.record[j]? = s.init_current_holding.record[j]?) := by
  simp only [calculate_earning] at h
  rw [Prod.ext_iff] at h
  obtain ⟨h1, h2⟩ := h
  dsimp only at h1 h2
  have hrec : calc_records gw today s.init_current_holding.record =
      ((calc_records gw today s.init_current_holding.record).1, some e) := by
    rw [Prod.ext_iff]; exact ⟨rfl, h2⟩
  obtain ⟨n, hn1, hn2⟩ := calc_records_error_split gw today _ _ _ hrec
  rw [← h1]
  exact ⟨n, hn1, hn2⟩

/-- A gateway whose data lookups always fail (network/auth error). -/
def gwFail : Gateway :=
  { taiwan_stock_dividend := fun _ _ => .error .gatewayUnavailable,
    taiwan_stock_daily_latest_close := fun _ => .error .gatewayUnavailable,
    stock_name_of := fun _ => "?" }

/-- First security of the prior ledger (the pass fails on this one). -/
def recPriorA : UserRecord :=
  { buying_histories :=
      [{ holding := { quantity := 1000, avg_price := 20 },
         holding_date := 20200101 }],
    current_holding := { quantity := 1000, avg_price := 30 },
    stock_no := "2330", stock_name := "A" }

/-- Second security of the prior ledger, with a nonzero reconstructed state
from an earlier successful pass. -/
def recPriorB : UserRecord :=
  { buying_histories :=
      [{ holding := { quantity := 2000, avg_price := 10 },
         holding_date := 20200101 }],
    current_holding := { quantity := 2100, avg_price := 55 },
    earning_events :=
      [{ cal_quantity := 2000, cash_dividend := 1, stock_dividend := 1,
         dividend_date := 20200601 }],
    cash_earning := 2000,
    stock_no := "0050", stock_name := "B" }

/-- A two-security ledger in its pre-pass (prior) state. -/
def holdingPrior : StockHoldingData :=
  { record := [("2330", recPriorA), ("0050", recPriorB)] }

/-- C2 (counterexample to the claim as stated): on `holdingPrior`, the
dividend-history lookup raises at the first security, so the second security
is never processed — yet its post-abort state is the freshly reset record,
not the state it had before the pass started (its prior current holding,
earning events and cumulative cash earning are wiped). -/
theorem calculate_earning_abort_cex :
    (calculate_earning gwFail 20250101 holdingPrior).2 =
      some PyError.gatewayUnavailable ∧
    (calculate_earning gwFail 20250101 holdingPrior).1.record[1]? =
      some ("0050", reset_record recPriorB) ∧
    some ("0050", reset_record recPriorB) ≠ holdingPrior.record[1]? := by
  refine ⟨?_, ?_, ?_⟩
  · norm_num [calculate_earning, StockHoldingData.init_current_holding,
      calc_records, calculate_earning_by_user_record,
      get_history_data_by_stock_no, find_earliest_date, gwFail, holdingPrior,
      recPriorA, recPriorB, reset_record]
  · norm_num [calculate_earning, StockHoldingData.init_current_holding,
      calc_records, calculate_earning_by_user_record,
      get_history_data_by_stock_no, find_earliest_date, gwFail, holdingPrior,
      recPriorA, recPriorB, reset_record]
  · norm_num [holdingPrior, reset_record, recPriorB]

/-- The ledger state left behind by the aborted pass on `holdingPrior`. -/
def holdingAborted : StockHoldingData :=
  (calculate_earning gwFail 20250101 holdingPrior).1

theorem calculate_earning_abort_states_witness :
    ∃ n : Nat,
      (∀ j, j < n → holdingAborted.record[j]? =
        (holdingPrior.init_current_holding.record[j]?).map
          (fun p =>
            (p.1, (calculate_earning_by_user_record gwFail 20250101 p.1 p.2).1))) ∧
      (∀ j, n < j → holdingAborted.record[j]? =
        holdingPrior.init_current_holding.record[j]?) :=
  calculate_earning_abort_states gwFail 20250101 holdingPrior holdingAborted
    PyError.gatewayUnavailable
    (by
      rw [Prod.ext_iff]
      refine ⟨rfl, ?_⟩
      norm_num [calculate_earning, StockHoldingData.init_current_holding,
        calc_records, calculate_earning_by_user_record,
        get_history_data_by_stock_no, find_earliest_date, gwFail, holdingPrior,
        recPriorA, recPriorB, reset_record])

/-! ## C7 and C8: holding rows round-trips -/

/-- The (security id, date, stored quantity, average price) tuple of a
holding row — the name-free content the round-trip properties compare. -/
def holdingTuple (row : HoldingTableRow) : String × Date × Int × Rat :=
  (row.stock_no, row.hold_date, row.quantity, row.avg_price)

theorem perm_of_list_eq {α : Type} {l1 l2 : List α} (h : l1 = l2) :
    l1.Perm l2 := h ▸ List.Perm.refl l1

theorem perm_middle_single {α : Type} (A B : List α) (x : α) :
    ((A ++ [x]) ++ B).Perm ((A ++ B) ++ [x]) := by
  rw [List.append_assoc, List.append_assoc]
  exact List.Perm.append_left A List.perm_append_comm

theorem updateFirst_rows_perm (k : String) (hd : Date) (q ap : Rat) :
    ∀ l : List (String × UserRecord), (∃ p ∈ l, p.1 = k) →
      ((StockHoldingData.mk
          (updateFirst k (push_history hd q ap) l)).gen_holding_table_rows.map
        holdingTuple).Perm
        (((StockHoldingData.mk l).gen_holding_table_rows.map holdingTuple) ++
          [(k, hd, pyInt (q * 1000), ap)]) := by
  intro l hk
  induction l with
  | nil => simp at hk
  | cons p rest ih =>
    by_cases hp : p.1 = k
    · simp only [updateFirst, if_pos hp, StockHoldingData.gen_holding_table_rows,
        List.flatMap_cons, List.map_append, push_history, List.map_cons,
        List.map_nil, holdingTuple]
      rw [← hp]
      exact perm_middle_single _ _ _
    · have hk' : ∃ p2 ∈ rest, p2.1 = k := by
        rcases hk with ⟨p2, hmem, hpk⟩
        rcases List.mem_cons.mp hmem with h | h
        · exact absurd (h ▸ hpk) hp
        · exact ⟨p2, h, hpk⟩
      have hperm := ih hk'
      simp only [updateFirst, if_neg hp, StockHoldingData.gen_holding_table_rows,
        List.flatMap_cons, List.map_append] at hperm ⊢
      rw [List.append_assoc]
      exact List.Perm.append_left _ hperm

theorem append_holding_rows_perm (gw : Gateway) (s : StockHoldingData)
    (stock_no : String) (hd : Date) (q ap : Rat) :
    (((s.append_holding gw stock_no hd q ap).gen_holding_table_rows).map
      holdingTuple).Perm
      ((s.gen_holding_table_rows.map holdingTuple) ++
        [(stock_no, hd, pyInt (q * 1000), ap)]) := by
  simp only [StockHoldingData.append_holding]
  by_cases hmem : (s.record.any (fun p => decide (p.1 = stock_no))) = true
  · rw [if_pos hmem]
    obtain ⟨p, hpl, hpk⟩ := List.any_eq_true.mp hmem
    exact updateFirst_rows_perm stock_no hd q ap s.record
      ⟨p, hpl, of_decide_eq_true hpk⟩
  · rw [if_neg hmem]
    have hkey : ∃ p ∈ s.record ++ [(stock_no,
        { stock_no := stock_no,
          stock_name := get_stock_name_by_stock_no gw stock_no,
          current_holding := {} : UserRecord })], p.1 = stock_no := by
      refine ⟨_, List.mem_append_right _ (List.mem_singleton_self _), rfl⟩
    have hperm := updateFirst_rows_perm stock_no hd q ap _ hkey
    have hrows : ((StockHoldingData.mk (s.record ++ [(stock_no,
        { stock_no := stock_no,
          stock_name := get_stock_name_by_stock_no gw stock_no,
          current_holding := {} : UserRecord })])).gen_holding_table_rows.map
          holdingTuple) =
        (s.gen_holding_table_rows.map holdingTuple) := by
      simp [StockHoldingData.gen_holding_table_rows, List.flatMap_append]
    rw [hrows] at hperm
    exact hperm

theorem add_lots_rows_perm (gw : Gateway) :
    ∀ (inputs : List (String × Date × Rat × Rat)) (s : StockHoldingData),
      ((add_lots gw inputs s).gen_holding_table_rows.map holdingTuple).Perm
        ((s.gen_holding_table_rows.map holdingTuple) ++
          inputs.map (fun i => (i.1, i.2.1, pyInt (i.2.2.1 * 1000), i.2.2.2))) := by
  intro inputs
  induction inputs with
  | nil => intro s; simp [add_lots]
  | cons i rest ih =>
    intro s
    simp only [add_lots, List.foldl_cons] at ih ⊢
    refine (ih (s.append_holding gw i.1 i.2.1 i.2.2.1 i.2.2.2)).trans ?_
    refine (List.Perm.append_right _
      (append_holding_rows_perm gw s i.1 i.2.1 i.2.2.1 i.2.2.2)).trans ?_
    exact perm_of_list_eq (by simp [List.append_assoc])

/-- C7: for every sequence of `add_lot` calls on a fresh ledger (each entered
quantity a whole multiple of a thousandth of a lot, so that the pydantic
`int` coercion truncates nothing), the derived holding-rows view has length
equal to the number of lots added, its rows carry back exactly the entered
security ids, dates and average prices, and each stored quantity is the
entered quantity times the normalization multiplier `1000`. -/
theorem add_lot_holding_rows_roundtrip (gw : Gateway)
    (inputs : List (String × Date × Rat × Rat))
    (hq : ∀ i ∈ inputs, ((i.2.2.1 * 1000 : Rat)).den = 1) :
    ((add_lots gw inputs emptyHolding).gen_holding_table_rows).length =
      inputs.length ∧
    (((add_lots gw inputs emptyHolding).gen_holding_table_rows).map
      holdingTuple).Perm
      (inputs.map (fun i => (i.1, i.2.1, pyInt (i.2.2.1 * 1000), i.2.2.2))) ∧
    ∀ i ∈ inputs, ((pyInt (i.2.2.1 * 1000) : Rat)) = i.2.2.1 * 1000 := by
  have hperm := add_lots_rows_perm gw inputs emptyHolding
  have hempty : emptyHolding.gen_holding_table_rows = [] := rfl
  rw [hempty] at hperm
  simp only [List.map_nil, List.nil_append] at hperm
  refine ⟨?_, hperm, fun i hi => pyInt_den_one _ (hq i hi)⟩
  have hlen := hperm.length_eq
  rw [List.length_map, List.length_map] at hlen
  exact hlen

/-- Three user inputs: two securities, one entered twice. -/
def inputsWit : List (String × Date × Rat × Rat) :=
  [("2330", 20200101, 5, 100), ("0050", 20200202, 2, 30),
   ("2330", 20200301, 3, 110)]

theorem add_lot_holding_rows_roundtrip_witness :
    (∀ i ∈ inputsWit, ((i.2.2.1 * 1000 : Rat)).den = 1) ∧
    (((add_lots gwFixed inputsWit emptyHolding).gen_holding_table_rows).length =
      inputsWit.length ∧
    (((add_lots gwFixed inputsWit emptyHolding).gen_holding_table_rows).map
      holdingTuple).Perm
      (inputsWit.map (fun i => (i.1, i.2.1, pyInt (i.2.2.1 * 1000), i.2.2.2))) ∧
    ∀ i ∈ inputsWit, ((pyInt (i.2.2.1 * 1000) : Rat)) = i.2.2.1 * 1000) :=
  ⟨by intro i hi; fin_cases hi <;> norm_num [inputsWit],
   add_lot_holding_rows_roundtrip gwFixed inputsWit
     (by intro i hi; fin_cases hi <;> norm_num [inputsWit])⟩

theorem load_history_rows_perm (gw : Gateway) :
    ∀ (rows : List HoldingTableRow) (s : StockHoldingData),
      ((load_history gw rows s).gen_holding_table_rows.map holdingTuple).Perm
        ((s.gen_holding_table_rows.map holdingTuple) ++
          rows.map (fun row => (row.stock_no, row.hold_date,
            pyInt (roundDouble ((row.quantity : Rat) / 1000) * 1000),
            row.avg_price))) := by
  intro rows
  induction rows with
  | nil => intro s; simp [load_history]
  | cons row rest ih =>
    intro s
    simp only [load_history, List.foldl_cons] at ih ⊢
    refine (ih (s.append_holding gw row.stock_no row.hold_date
      (roundDouble ((row.quantity : Rat) / 1000)) row.avg_price)).trans ?_
    refine (List.Perm.append_right _
      (append_holding_rows_perm gw s row.stock_no row.hold_date
        (roundDouble ((row.quantity : Rat) / 1000)) row.avg_price)).trans ?_
    exact perm_of_list_eq (by simp [List.append_assoc])

theorem pyInt_div_mul_thousand (n : Int) :
    pyInt ((n : Rat) / 1000 * 1000) = n := by
  have h : ((n : Rat)) / 1000 * 1000 = (n : Rat) :=
    div_mul_cancel₀ _ (by norm_num)
  rw [h, pyInt_intCast]



/-- The record produced by a successful reconstruction of `recSingleLot`. -/
def recSingleLotDone : UserRecord :=
  (calculate_earning_by_user_record gwFixed 20210101 "2330" recSingleLot).1

theorem earning_event_count_witness :
    recSingleLot.earning_events = [] ∧
    find_earliest_date recSingleLot.buying_histories = some 20200101 ∧
    gwFixed.taiwan_stock_dividend "2330" 20200101 = .ok dfSingle ∧
    calculate_earning_by_user_record gwFixed 20210101 "2330" recSingleLot =
      (recSingleLotDone, none) ∧
    recSingleLotDone.earning_events.length =
      ((accrual_windows 20210101
          (sortedByHoldingDate recSingleLot.buying_histories)).map
        (fun w => (dfSingle.filter
          (fun row => decide (w.1 < row.CashExDividendTradingDate) &&
            decide (row.CashExDividendTradingDate < w.2))).length)).sum :=
  have hd : find_earliest_date recSingleLot.buying_histories =
      some 20200101 := by
    norm_num [find_earliest_date, recSingleLot]
  have hcalc : calculate_earning_by_user_record gwFixed 20210101 "2330"
      recSingleLot = (recSingleLotDone, none) := by
    rw [Prod.ext_iff]
    refine ⟨rfl, ?_⟩
    norm_num [calculate_earning_by_user_record, get_history_data_by_stock_no,
      find_earliest_date, sortedByHoldingDate, List.insertionSort,
      List.orderedInsert, process_lots, apply_dividend_row,
      get_latest_stock_price_by_stock_no, pyInt, recSingleLot, gwFixed,
      dfSingle]
  ⟨rfl, hd, rfl, hcalc,
    earning_event_count gwFixed 20210101 "2330" recSingleLot recSingleLotDone
      20200101 _ rfl hd rfl hcalc⟩

theorem pyInt_eq_floor (q : Rat) (h : 0 ≤ q) : pyInt q = ⌊q⌋ := by
  rw [pyInt, Int.tdiv_eq_ediv (Rat.num_nonneg.mpr h) (by positivity),
    Rat.floor_def]

theorem rneRat_intCast (m : Int) : rneRat (m : Rat) = m := by
  simp [rneRat]

/-- A quotient `n / 1000` whose dividend is a multiple of `125` (and small
enough for a 53-bit significand) is exactly representable as a binary64
value, so the correctly rounded division returns it unchanged. -/
theorem roundDouble_div_thousand (n : Int) (h125 : (125 : Int) ∣ n)
    (hb : n.natAbs < 2 ^ 53) :
    roundDouble ((n : Rat) / 1000) = (n : Rat) / 1000 := by
  obtain ⟨k, hk⟩ := h125
  by_cases hn : n = 0
  · subst hn; norm_num [roundDouble]
  · have hq0 : ((n : Rat) / 1000) ≠ 0 := by
      apply div_ne_zero
      · exact_mod_cast hn
      · norm_num
    have habs_pos : (0 : Rat) < |(n : Rat) / 1000| := abs_pos.mpr hq0
    have hq8 : ((n : Rat) / 1000) * 8 = (k : Rat) := by
      rw [hk]; push_cast; field_simp; ring
    have hqlt : |(n : Rat) / 1000| < ((2 : Nat) : Rat) ^ ((50 : Int)) := by
      rw [abs_div, abs_of_pos (by norm_num : (0 : Rat) < 1000),
        div_lt_iff₀ (by norm_num : (0 : Rat) < 1000)]
      have h1 : |(n : Rat)| = ((n.natAbs : Nat) : Rat) := by
        rw [← Int.cast_abs, Int.abs_eq_natAbs, Int.cast_natCast]
      rw [h1]
      have h2 : ((n.natAbs : Nat) : Rat) < ((2 : Rat)) ^ (53 : Nat) := by
        exact_mod_cast hb
      have h3 : ((2 : Rat)) ^ (53 : Nat) ≤ ((2 : Nat) : Rat) ^ ((50 : Int)) * 1000 := by
        norm_num
      linarith
    simp only [roundDouble, if_neg hq0]
    set e : Int := Int.log 2 |(n : Rat) / 1000| with he
    have he_le : e ≤ 49 := by
      have h2 := (Int.lt_zpow_iff_log_lt (by norm_num) habs_pos).mp hqlt
      omega
    have hx : ((n : Rat) / 1000) * (2 : Rat) ^ (52 - e) =
        ((k * 2 ^ (49 - e).toNat : Int) : Rat) := by
      have hsplit : (52 - e) = 3 + (49 - e) := by ring
      rw [hsplit, zpow_add₀ (by norm_num : (2 : Rat) ≠ 0),
        show (2 : Rat) ^ (3 : Int) = 8 by norm_num, ← mul_assoc, hq8]
      push_cast
      rw [← zpow_natCast (2 : Rat) (49 - e).toNat,
        Int.toNat_of_nonneg (by omega)]
    rw [hx, rneRat_intCast]
    push_cast
    rw [← zpow_natCast (2 : Rat) (49 - e).toNat,
      Int.toNat_of_nonneg (by omega),
      mul_assoc, ← zpow_add₀ (by norm_num : (2 : Rat) ≠ 0)]
    have hexp : (49 - e) + (e - 52) = (-3 : Int) := by ring
    rw [hexp, show (2 : Rat) ^ ((-3 : Int)) = 1 / 8 by norm_num]
    linarith [hq8]

/-- The binary64 value of `1001 / 1000`: the scaled significand
`1001 · 2^52 / 1000` has fractional part `0.496 < 1/2`, so the correctly
rounded quotient lies strictly below `1.001`. -/
theorem roundDouble_1001 : roundDouble ((1001 : Rat) / 1000) =
    (4508103226997866 : Rat) / 2 ^ 52 := by
  have hq0 : ((1001 : Rat) / 1000) ≠ 0 := by norm_num
  have he : Int.log 2 |(1001 : Rat) / 1000| = 0 := by
    rw [abs_of_pos (by norm_num : (0 : Rat) < (1001 : Rat) / 1000)]
    have h1 : Int.log 2 ((1001 : Rat) / 1000) < 1 := by
      rw [← Int.lt_zpow_iff_log_lt (by norm_num) (by norm_num)]
      norm_num
    have h2 : (0 : Int) ≤ Int.log 2 ((1001 : Rat) / 1000) := by
      rw [← Int.zpow_le_iff_le_log (by norm_num) (by norm_num)]
      norm_num
    omega
  simp only [roundDouble, if_neg hq0, he, sub_zero, zero_sub]
  have hval : (1001 : Rat) / 1000 * 2 ^ ((52 : Int)) =
      4508103226997866496 / 1000 := by
    norm_num
  rw [hval]
  have hf : ⌊(4508103226997866496 : Rat) / 1000⌋ = 4508103226997866 := by
    rw [Int.floor_eq_iff]
    constructor <;> norm_num
  have hr : rneRat ((4508103226997866496 : Rat) / 1000) = 4508103226997866 := by
    simp only [rneRat, hf]
    norm_num
  rw [hr]
  norm_num

/-- Re-scaling the rounded quotient of `1001 / 1000` by `1000` and
truncating gives back `1000`, not `1001`. -/
theorem pyInt_roundDouble_1001 :
    pyInt (roundDouble ((1001 : Rat) / 1000) * 1000) = 1000 := by
  rw [roundDouble_1001, pyInt_eq_floor _ (by positivity), Int.floor_eq_iff]
  constructor <;> norm_num

/-- A ledger with one lot whose stored quantity `1001` is reachable
(entering `1.0011` lots stores `int(1.0011 * 1000) = 1001`) but is not a
multiple of `125`, so its division by `1000` rounds. -/
def holding1001 : StockHoldingData :=
  { record := [("2330",
      { buying_histories :=
          [{ holding := { quantity := 1001, avg_price := 50 },
             holding_date := 20200101 }],
        current_holding := { quantity := 0, avg_price := 0 },
        stock_no := "2330", stock_name := "台積電" })] }

/-- C8 (counterexample to the claim as stated): exporting `holding1001` and
importing the file into a fresh ledger does not reproduce the original
tuples — the stored quantity `1001` divides to the binary64 value just
below `1.001`, and `append_holding`'s re-scaling truncates it to `1000` —
so the round-trip does not hold for every ledger. -/
theorem export_import_roundtrip_cex :
    ¬ (((write_history_rows (load_history gwFixed
          (write_history_rows holding1001) emptyHolding)).map
        holdingTuple).Perm
        ((write_history_rows holding1001).map holdingTuple)) := by
  intro hperm
  have hfinal : (write_history_rows (load_history gwFixed
      (write_history_rows holding1001) emptyHolding)).map holdingTuple =
      [("2330", 20200101, 1000, 50)] := by
    norm_num [write_history_rows, load_history, holding1001, emptyHolding,
      StockHoldingData.append_holding, updateFirst, push_history,
      get_stock_name_by_stock_no, gwFixed, holdingTuple,
      pyInt_roundDouble_1001]
  have horig : (write_history_rows holding1001).map holdingTuple =
      [("2330", 20200101, 1001, 50)] := by
    norm_num [write_history_rows, holding1001, holdingTuple]
  rw [hfinal, horig, List.perm_singleton] at hperm
  simp at hperm

/-- C8 (amended): exporting every lot of every security to the tabular
history file and importing that file into a fresh ledger yields the same
multiset (hence the same set, independent of row order) of
(security id, date, stored quantity, average price) tuples as the original
ledger, provided each stored quantity is a multiple of `125` below `2^53`
in magnitude — exactly the quantities (in particular all whole-lot
multiples of `1000`) whose float division by `1000` is exact, so the import
divides and `append_holding` re-multiplies without loss.  For other stored
quantities the float quotient rounds and the round-trip can change the
quantity (see the counterexample at `1001`). -/
theorem export_import_roundtrip_exact (gw : Gateway) (s : StockHoldingData)
    (hq : ∀ row ∈ write_history_rows s,
      (125 : Int) ∣ row.quantity ∧ row.quantity.natAbs < 2 ^ 53) :
    ((write_history_rows (load_history gw (write_history_rows s)
        emptyHolding)).map holdingTuple).Perm
      ((write_history_rows s).map holdingTuple) := by
  have hperm := load_history_rows_perm gw (write_history_rows s) emptyHolding
  have hempty : emptyHolding.gen_holding_table_rows = [] := rfl
  rw [hempty] at hperm
  simp only [List.map_nil, List.nil_append] at hperm
  have hmap : (write_history_rows s).map (fun row => (row.stock_no,
      row.hold_date,
      pyInt (roundDouble ((row.quantity : Rat) / 1000) * 1000),
      row.avg_price)) = (write_history_rows s).map holdingTuple := by
    apply List.map_congr_left
    intro row hrow
    obtain ⟨h125, hlt⟩ := hq row hrow
    rw [roundDouble_div_thousand row.quantity h125 hlt,
      pyInt_div_mul_thousand]
    rfl
  rw [hmap] at hperm
  exact hperm

theorem export_import_roundtrip_exact_witness :
    (∀ row ∈ write_history_rows holdingOne,
      (125 : Int) ∣ row.quantity ∧ row.quantity.natAbs < 2 ^ 53) ∧
    ((write_history_rows (load_history gwFixed (write_history_rows holdingOne)
        emptyHolding)).map holdingTuple).Perm
      ((write_history_rows holdingOne).map holdingTuple) :=
  have hq : ∀ row ∈ write_history_rows holdingOne,
      (125 : Int) ∣ row.quantity ∧ row.quantity.natAbs < 2 ^ 53 := by
    intro row hrow
    have hrows : write_history_rows holdingOne =
        [{ stock_no := "0050", stock_name := "元大台灣50",
           hold_date := 20200101, quantity := 1000, avg_price := 10 },
         { stock_no := "0050", stock_name := "元大台灣50",
           hold_date := 20200301, quantity := 3000, avg_price := 20 }] := rfl
    rw [hrows] at hrow
    rcases List.mem_cons.mp hrow with h | h
    · subst h; constructor
      · norm_num
      · norm_num
    · rcases List.mem_cons.mp h with h2 | h2
      · subst h2; constructor
        · norm_num
        · norm_num
      · simp at h2
  ⟨hq, export_import_roundtrip_exact gwFixed holdingOne hq⟩
